import Mathlib

/-!
Verification of the dispatch engine of the Go-Projects load balancers.

The repository contains four variants of one load balancer (least
connections, least response time, weighted round robin, round robin) and a
source-IP-hash balancer.  Each variant keeps an ordered pool of servers,
probes liveness inline (IsAlive), and picks a target per request.  This file
is a shallow embedding of those Go functions: pools become lists of server
records, the network liveness probe becomes a per-scan boolean answer, the
md5 digest of the hash balancer becomes an abstract digest function, and the
unbounded Go loops become fuel-indexed recursions where the value none at
fuel exhaustion witnesses that no unrolling depth makes the loop exit.
-/

namespace GoLB

/-! ### Health probe (sourceIPHash.go, simpleServer.IsAlive, lines 58-70)

The probe issues a bounded-timeout GET; the outcome of that external call is
modelled as an input pair: whether the call returned an error, and the
status code of the response.  The Go body is
`if err != nil || resp.StatusCode != http.StatusOK { return false }; return true`. -/

def httpStatusOK : Nat := 200

def isAliveProbe (probeErr : Bool) (statusCode : Nat) : Bool :=
  if probeErr || statusCode != httpStatusOK then false else true

/-! ### Source-IP-hash balancer (sourceIPHash.go)

`hashIP` takes the big-endian first 32-bit word of the md5 digest of the
address string.  The md5 library is external, so the digest is a parameter;
the reduction modulo 2^32 is the uint32 type of the Go result.

`pickServer` computes `int(hashIP(ip)) % len(servers)` and then runs
`for !servers[idx].IsAlive() { idx = (idx+1) % len(servers) }`.
The loop has no full-cycle exit, so it is embedded with fuel: a result
of none at every fuel means the Go loop never returns. -/

def uint32Mod : Nat := 4294967296

def hashIP (digest : String → Nat) (ip : String) : Nat :=
  digest ip % uint32Mod

def ipHashLoop (alive : List Bool) : Nat → Nat → Option Nat
  | 0, _ => none
  | Nat.succ fuel, idx =>
    if alive.getD idx false then some idx
    else ipHashLoop alive fuel ((idx + 1) % alive.length)

def ipHashPickServer (digest : String → Nat) (alive : List Bool) (ip : String) : Option Nat :=
  ipHashLoop alive alive.length (hashIP digest ip % alive.length)

/-! The Go index expression `int(hashIP(ip)) % len(lb.servers)` converts the
uint32 digest word to a 64-bit signed int and applies Go `%`, which is
truncating (Int.tmod).  `goInt64OfNat` is the two's-complement conversion of
a natural number into the signed 64-bit range. -/

def int64Mod : Nat := 18446744073709551616

def int64Half : Nat := 9223372036854775808

def goInt64OfNat (x : Nat) : Int :=
  if x % int64Mod < int64Half then ((x % int64Mod : Nat) : Int)
  else ((x % int64Mod : Nat) : Int) - (int64Mod : Int)

def ipHashStartIndex (digest : String → Nat) (ip : String) (n : Nat) : Int :=
  Int.tmod (goInt64OfNat (hashIP digest ip)) (goInt64OfNat n)

/-! ### Round-robin balancer (the fourth file of the repository)

`pickServer` remembers `startIndex := roundRobinIndex`, then loops: read the
server at `roundRobinIndex % n`, advance the cursor modulo n, return the
server if alive, and return nil when the advanced cursor equals the start
index again.  The loop visits each slot at most once, so fuel n is exact;
the pick returns the chosen index (or none for nil) with the new cursor. -/

def rrLoop (alive : List Bool) (startIndex : Nat) : Nat → Nat → Option (Option Nat × Nat)
  | 0, _ => none
  | Nat.succ fuel, idx =>
    if alive.getD (idx % alive.length) false then some (some (idx % alive.length), (idx + 1) % alive.length)
    else if (idx + 1) % alive.length = startIndex then some (none, (idx + 1) % alive.length)
    else rrLoop alive startIndex fuel ((idx + 1) % alive.length)

def rrPickServer (alive : List Bool) (cursor : Nat) : Option (Option Nat × Nat) :=
  rrLoop alive cursor alive.length cursor

/-! Dispatcher outcome (serveProxy in every variant): a nil pick answers
HTTP 503 Service Unavailable without contacting a backend, otherwise the
request is forwarded to the picked server. -/

inductive DispatchResult where
  | forwarded : Nat → DispatchResult
  | unavailable : DispatchResult
deriving DecidableEq, Repr

def serveProxyRR (alive : List Bool) (cursor : Nat) : DispatchResult × Nat :=
  match rrPickServer alive cursor with
  | some (some i, c) => (DispatchResult.forwarded i, c)
  | some (none, c) => (DispatchResult.unavailable, c)
  | none => (DispatchResult.unavailable, cursor)

/-! ### Least-connections balancer (leastConnection.go)

A server record carries the probe answer for the current scan and the
connections counter (a Go int, modelled as Int since DecrementConnection
can in principle drive it below zero). -/

structure LCServer where
  addr : String
  alive : Bool
  connections : Int
deriving DecidableEq, Repr

/-- `int(^uint(0) >> 1)`, the max value of a 64-bit Go int, used as the
initial minimum by both scanning picks. -/
def maxGoInt : Int := 9223372036854775807

/-- The common shape of the two scanning picks: walk the pool in order,
and whenever an alive server's key is strictly below the running minimum,
remember the server and lower the minimum.  `i` is the index of the head of
`l` within the original pool, `sel` the currently selected index. -/
def scanMinAux {α : Type} (key : α → Int) (isAl : α → Bool) :
    List α → Nat → Int → Option Nat → Option Nat
  | [], _, _, sel => sel
  | s :: rest, i, minV, sel =>
    if isAl s then
      if key s < minV then scanMinAux key isAl rest (i + 1) (key s) (some i)
      else scanMinAux key isAl rest (i + 1) minV sel
    else scanMinAux key isAl rest (i + 1) minV sel

def lcPickServer (servers : List LCServer) : Option Nat :=
  scanMinAux (fun s => s.connections) (fun s => s.alive) servers 0 maxGoInt none

def serveProxyLC (servers : List LCServer) : DispatchResult :=
  match lcPickServer servers with
  | some i => DispatchResult.forwarded i
  | none => DispatchResult.unavailable

/-! ### Least-response-time balancer (first file of part_000)

The server record adds the two latency accumulators updated by Serve.
`averageResponseTime` is `if requests == 0 { 0 } else { total / requests }`
with Go integer division (truncating, Int.tdiv). -/

structure LRTServer where
  addr : String
  alive : Bool
  connections : Int
  totalResponseTime : Int
  requests : Int
deriving DecidableEq, Repr

def averageResponseTime (s : LRTServer) : Int :=
  if s.requests = 0 then 0 else Int.tdiv s.totalResponseTime s.requests

/-- `time.Duration(^uint64(0) >> 1)`, the initial minimum of the
least-response-time scan; numerically equal to maxGoInt. -/
def maxGoDuration : Int := 9223372036854775807

def lrtPickServer (servers : List LRTServer) : Option Nat :=
  scanMinAux (fun s => averageResponseTime s) (fun s => s.alive) servers 0 maxGoDuration none

def serveProxyLRT (servers : List LRTServer) : DispatchResult :=
  match lrtPickServer servers with
  | some i => DispatchResult.forwarded i
  | none => DispatchResult.unavailable

/-! ### Connection counter and the Serve lifecycle (leastConnection.go, part_000)

IncrementConnection and DecrementConnection mutate the per-server counter
under the server mutex; Serve increments, forwards, and decrements via
defer on every exit path.  A concurrent burst of Serve calls is modelled as
a trace of counter events in which every decrement is preceded by its
matching increment (that is what defer guarantees), interleaved
arbitrarily across requests. -/

inductive ConnEvent where
  | inc : ConnEvent
  | dec : ConnEvent
deriving DecidableEq, Repr

def incrementConnection (c : Int) : Int := c + 1

def decrementConnection (c : Int) : Int := c - 1

def applyConnEvent (c : Int) : ConnEvent → Int
  | ConnEvent.inc => incrementConnection c
  | ConnEvent.dec => decrementConnection c

def runConnTrace (c : Int) (es : List ConnEvent) : Int :=
  es.foldl applyConnEvent c

def incCount (es : List ConnEvent) : Nat := es.count ConnEvent.inc

def decCount (es : List ConnEvent) : Nat := es.count ConnEvent.dec

/-! ### Weighted-round-robin balancer (second file of part_000)

State: `currentServer` and `currentWeight` shared across picks;
`weightCounters[i]` is the static weight of server i, fixed at
construction.  Each loop iteration advances the index modulo n; on a wrap
to index 0 the current weight is decremented and, at zero or below, reset
to the maximum static weight (`return nil` if that maximum is zero).  The
candidate is accepted when its weight counter is at least the current
weight and its probe succeeds.  The loop has no other exit, so it is
embedded with fuel; none at every fuel means the Go loop never returns. -/

structure WrrState where
  currentServer : Nat
  currentWeight : Int
deriving DecidableEq, Repr

def maxWeight (weights : List Int) : Int :=
  weights.foldl (fun m w => if w > m then w else m) 0

/-- The currentWeight update performed on a wrap to index 0; none encodes
the `return nil` branch taken when maxWeight is zero. -/
def wrrUpdateWeight (weights : List Int) (wrapped : Bool) (cw0 : Int) : Option Int :=
  if wrapped then
    if cw0 - 1 ≤ 0 then
      if maxWeight weights = 0 then none else some (maxWeight weights)
    else some (cw0 - 1)
  else some cw0

def wrrLoop (weights : List Int) (alive : List Bool) :
    Nat → Nat → Int → Option (Option Nat × WrrState)
  | 0, _, _ => none
  | Nat.succ fuel, cs0, cw0 =>
    match wrrUpdateWeight weights ((cs0 + 1) % weights.length == 0) cw0 with
    | none => some (none, ⟨(cs0 + 1) % weights.length, 0⟩)
    | some cw =>
      if weights.getD ((cs0 + 1) % weights.length) 0 ≥ cw
          ∧ alive.getD ((cs0 + 1) % weights.length) false = true then
        some (some ((cs0 + 1) % weights.length), ⟨(cs0 + 1) % weights.length, cw⟩)
      else wrrLoop weights alive fuel ((cs0 + 1) % weights.length) cw

def wrrPickServer (weights : List Int) (alive : List Bool) (st : WrrState) :
    Option Nat × WrrState :=
  match wrrLoop weights alive (weights.length * ((maxWeight weights).toNat + 2))
      st.currentServer st.currentWeight with
  | some r => r
  | none => (none, st)

/-! The configuration of the weighted-round-robin main: three servers of
weights 5, 3 and 1, with every probe succeeding, picked repeatedly from the
freshly constructed state (currentServer = 0, currentWeight = 0). -/

def wrr531 : List Int := [5, 3, 1]

def allAlive3 : List Bool := [true, true, true]

def wrrStateAfter : Nat → WrrState
  | 0 => ⟨0, 0⟩
  | Nat.succ k => (wrrPickServer wrr531 allAlive3 (wrrStateAfter k)).2

def wrrSeq (k : Nat) : Option Nat :=
  (wrrPickServer wrr531 allAlive3 (wrrStateAfter k)).1

def wrrWindow (k : Nat) : List (Option Nat) :=
  (List.range 9).map (fun i => wrrSeq (k + i))

/-! ### State-threaded scanning picks

To state that the least-connections and least-response-time picks are
read-only on backend state, the same loops are embedded once more in a
state-passing style: every call a loop iteration makes (IsAlive,
Connections, AverageResponseTime) takes the pool and returns its value
together with the pool it leaves behind, and the loop threads that pool
through.  The frame theorem then says the pool coming out of a whole pick
equals the pool that went in. -/

def lcDefault : LCServer := ⟨"", false, 0⟩

def lcIsAliveCall (p : List LCServer) (i : Nat) : Bool × List LCServer :=
  ((p.getD i lcDefault).alive, p)

def lcConnectionsCall (p : List LCServer) (i : Nat) : Int × List LCServer :=
  ((p.getD i lcDefault).connections, p)

def lcPickServerStGo : Nat → List LCServer → Nat → Int → Option Nat →
    Option Nat × List LCServer
  | 0, p, _, _, sel => (sel, p)
  | Nat.succ fuel, p, i, minV, sel =>
    if i < p.length then
      let a := lcIsAliveCall p i
      if a.1 then
        let c := lcConnectionsCall a.2 i
        if c.1 < minV then lcPickServerStGo fuel c.2 (i + 1) c.1 (some i)
        else lcPickServerStGo fuel c.2 (i + 1) minV sel
      else lcPickServerStGo fuel a.2 (i + 1) minV sel
    else (sel, p)

def lcPickServerSt (p : List LCServer) : Option Nat × List LCServer :=
  lcPickServerStGo p.length p 0 maxGoInt none

def lrtDefault : LRTServer := ⟨"", false, 0, 0, 0⟩

def lrtIsAliveCall (p : List LRTServer) (i : Nat) : Bool × List LRTServer :=
  ((p.getD i lrtDefault).alive, p)

def lrtAverageCall (p : List LRTServer) (i : Nat) : Int × List LRTServer :=
  (averageResponseTime (p.getD i lrtDefault), p)

def lrtPickServerStGo : Nat → List LRTServer → Nat → Int → Option Nat →
    Option Nat × List LRTServer
  | 0, p, _, _, sel => (sel, p)
  | Nat.succ fuel, p, i, minV, sel =>
    if i < p.length then
      let a := lrtIsAliveCall p i
      if a.1 then
        let c := lrtAverageCall a.2 i
        if c.1 < minV then lrtPickServerStGo fuel c.2 (i + 1) c.1 (some i)
        else lrtPickServerStGo fuel c.2 (i + 1) minV sel
      else lrtPickServerStGo fuel a.2 (i + 1) minV sel
    else (sel, p)

def lrtPickServerSt (p : List LRTServer) : Option Nat × List LRTServer :=
  lrtPickServerStGo p.length p 0 maxGoDuration none

/-! ### Concrete pools used by the claim instances -/

/-- Three backends, every liveness probe failing. -/
def allDead3 : List Bool := [false, false, false]

def deadLCPool : List LCServer :=
  [⟨"https://www.facebook.com", false, 0⟩,
   ⟨"http://www.bing.com", false, 0⟩,
   ⟨"http://www.duckduckgo.com", false, 0⟩]

def deadLRTPool : List LRTServer :=
  [⟨"https://www.facebook.com", false, 0, 0, 0⟩,
   ⟨"http://www.bing.com", false, 0, 0, 0⟩,
   ⟨"http://www.duckduckgo.com", false, 0, 0, 0⟩]

/-- A single alive backend whose connections counter equals the max-int
sentinel the scan starts from. -/
def sentinelLCPool : List LCServer := [⟨"https://www.facebook.com", true, maxGoInt⟩]

/-- A dead backend followed by three alive ones with counts 5, 3, 3. -/
def exLCPool : List LCServer :=
  [⟨"a", false, 0⟩, ⟨"b", true, 5⟩, ⟨"c", true, 3⟩, ⟨"d", true, 3⟩]

/-- A measured backend (average 5) before a never-measured one. -/
def exLRTPool : List LRTServer :=
  [⟨"a", true, 0, 10, 2⟩, ⟨"b", true, 0, 0, 0⟩]

/-- Round-robin scenario pool: A alive, B alive, C dead. -/
def rrPoolABC : List Bool := [true, true, false]

/-- An example interleaving of three completed Serve calls. -/
def exTrace : List ConnEvent :=
  [ConnEvent.inc, ConnEvent.inc, ConnEvent.dec, ConnEvent.inc, ConnEvent.dec, ConnEvent.dec]

/-- A digest that maps every address to 0. -/
def digestZero : String → Nat := fun _ => 0

/- ======================================================================
   Theorems
   ====================================================================== -/

/-! Small facts shared by several proofs. -/

theorem allDead3_getD (i : Nat) : allDead3.getD i false = false := by
  rcases i with _ | _ | _ | i <;> rfl

theorem wrrUpdateWeight_531_isSome (b : Bool) (w : Int) :
    ∃ w2, wrrUpdateWeight wrr531 b w = some w2 := by
  cases b
  · exact ⟨w, rfl⟩
  · unfold wrrUpdateWeight
    by_cases h : w - 1 ≤ 0
    · refine ⟨maxWeight wrr531, ?_⟩
      rw [if_pos rfl, if_pos h, if_neg (by decide)]
    · exact ⟨w - 1, by rw [if_pos rfl, if_neg h]⟩

/-- Claim C8: the liveness probe reports true exactly when the GET request
returned without error and the responder answered the success status
http.StatusOK (200); any error outcome (timeout, connection failure) or any
other status yields false. -/
theorem isAliveProbe_iff (probeErr : Bool) (statusCode : Nat) :
    isAliveProbe probeErr statusCode = true ↔
      (probeErr = false ∧ statusCode = httpStatusOK) := by
  cases probeErr <;> simp [isAliveProbe, httpStatusOK]

/-- Claim C5: with pool [A, B, C] where A and B answer every probe and C is
dead, round-robin picks starting from cursor 0 return A (index 0), then B
(index 1), then A again; the dead C (index 2) is skipped, and during the
third pick the cursor advances past C to settle at 1. -/
theorem rr_picks_A_B_A :
    rrPickServer rrPoolABC 0 = some (some 0, 1) ∧
    rrPickServer rrPoolABC 1 = some (some 1, 2) ∧
    rrPickServer rrPoolABC 2 = some (some 0, 1) := by decide

/-- Claim C10: for a non-empty pool (whose size, a Go int, is below 2^63)
the starting index `int(hashIP(ip)) % len(servers)` is non-negative and
below the pool size, because the uint32 digest word stays non-negative
after the two's-complement conversion to a 64-bit int; the Go truncating
`%` therefore agrees with the natural-number reduction used by
ipHashPickServer, so the slice indexing is in bounds. -/
theorem ipHash_startIndex_in_bounds (digest : String → Nat) (ip : String) (n : Nat)
    (hn : 0 < n) (hn64 : n < int64Half) :
    0 ≤ ipHashStartIndex digest ip n ∧ ipHashStartIndex digest ip n < (n : Int) ∧
      ipHashStartIndex digest ip n = ((hashIP digest ip % n : Nat) : Int) := by
  have hh : hashIP digest ip < uint32Mod := Nat.mod_lt _ (by decide)
  have h64 : hashIP digest ip < int64Mod := lt_trans hh (by decide)
  have h1 : hashIP digest ip % int64Mod = hashIP digest ip := Nat.mod_eq_of_lt h64
  have h2 : goInt64OfNat (hashIP digest ip) = (hashIP digest ip : Int) := by
    unfold goInt64OfNat
    rw [h1, if_pos (lt_trans hh (by decide))]
  have h3 : n % int64Mod = n := Nat.mod_eq_of_lt (lt_trans hn64 (by decide))
  have h4 : goInt64OfNat n = (n : Int) := by
    unfold goInt64OfNat
    rw [h3, if_pos hn64]
  have h5 : ipHashStartIndex digest ip n = ((hashIP digest ip % n : Nat) : Int) := by
    unfold ipHashStartIndex
    rw [h2, h4]
    rfl
  refine ⟨?_, ?_, h5⟩
  · rw [h5]; exact Int.ofNat_nonneg _
  · rw [h5]
    exact_mod_cast Nat.mod_lt _ hn

/-- Witness for C10 at a digest word above 2^31 (which would be negative as
a 32-bit int but stays positive as Go's 64-bit int), pool size 3. -/
theorem ipHash_startIndex_in_bounds_witness :
    0 ≤ ipHashStartIndex (fun _ => 3000000000) "203.0.113.7" 3 ∧
      ipHashStartIndex (fun _ => 3000000000) "203.0.113.7" 3 < (3 : Int) ∧
      ipHashStartIndex (fun _ => 3000000000) "203.0.113.7" 3 =
        ((hashIP (fun _ => 3000000000) "203.0.113.7" % 3 : Nat) : Int) :=
  ipHash_startIndex_in_bounds (fun _ => 3000000000) "203.0.113.7" 3 (by decide) (by decide)

/-- Counterexample to claim C4 as stated: one address, an unchanged pool of
two servers, and the server returned by the first call (index 1) still
alive at the second call; yet because server 0's probe answer flipped from
dead to alive between the calls, the second call returns server 0, not
server 1.  Stability holds only under unchanged liveness answers for the
whole pool, not merely for the previously chosen backend. -/
theorem ipHash_second_call_differs :
    ipHashPickServer digestZero [false, true] "203.0.113.7" = some 1 ∧
    ipHashPickServer digestZero [true, true] "203.0.113.7" = some 0 ∧
    [true, true].getD 1 false = true ∧
    (some 1 : Option Nat) ≠ some 0 := by decide

/-- Claim C4 as amended: the source-IP-hash pick is a deterministic
function of the digest of the client address and the liveness answers of
the pool: two calls that see the same digest value for the address and the
same per-server liveness answers return the same backend. -/
theorem ipHash_pick_deterministic (digest1 digest2 : String → Nat)
    (alive1 alive2 : List Bool) (ip : String)
    (hdig : digest1 ip = digest2 ip) (hlen : alive1.length = alive2.length)
    (halive : ∀ i, i < alive1.length → alive1.getD i false = alive2.getD i false) :
    ipHashPickServer digest1 alive1 ip = ipHashPickServer digest2 alive2 ip := by
  have halist : alive1 = alive2 := by
    apply List.ext_getElem hlen
    intro i h1 h2
    have h := halive i h1
    rwa [List.getD_eq_getElem alive1 false h1, List.getD_eq_getElem alive2 false h2] at h
  subst halist
  unfold ipHashPickServer hashIP
  rw [hdig]

/-- Witness for C4's amended theorem: two distinct digest functions that
agree on the one address in use, identical liveness answers. -/
theorem ipHash_pick_deterministic_witness :
    ipHashPickServer (fun _ => 1) [true, false] "a" =
      ipHashPickServer (fun s => s.length) [true, false] "a" :=
  ipHash_pick_deterministic (fun _ => 1) (fun s => s.length) [true, false] [true, false]
    "a" (by decide) (by decide) (fun i _ => rfl)

/-- Claim C1, settled against the code: with every probe failing, the
least-connections, least-response-time and round-robin picks do return
nil and their dispatchers answer 503 — but the source-IP-hash pick and the
weighted-round-robin pick (weights 5, 3, 1) never return at all: their
loops have no reachable exit when no server is alive (the hash loop has no
cycle detection; maxWeight ignores liveness and stays 5), so no unrolling
depth makes them produce a value, and the 503 branch of their dispatchers
is never reached.  The claim that every strategy returns nil followed by a
503 is therefore the documented intent (both files carry the nil check and
the "All servers are down" message), and the two looping picks are the
slip. -/
theorem all_dead_pool_behavior :
    (lcPickServer deadLCPool = none ∧ serveProxyLC deadLCPool = DispatchResult.unavailable) ∧
    (lrtPickServer deadLRTPool = none ∧ serveProxyLRT deadLRTPool = DispatchResult.unavailable) ∧
    (rrPickServer allDead3 0 = some (none, 0) ∧
      (serveProxyRR allDead3 0).1 = DispatchResult.unavailable) ∧
    (∀ fuel idx, ipHashLoop allDead3 fuel idx = none) ∧
    (∀ fuel cs cw, wrrLoop wrr531 allDead3 fuel cs cw = none) := by
  refine ⟨by decide, by decide, by decide, ?_, ?_⟩
  · intro fuel
    induction fuel with
    | zero => intro idx; rfl
    | succ fuel ih =>
      intro idx
      simp only [ipHashLoop, allDead3_getD, Bool.false_eq_true, if_false]
      exact ih _
  · intro fuel
    induction fuel with
    | zero => intro cs cw; rfl
    | succ fuel ih =>
      intro cs cw
      obtain ⟨w2, hw2⟩ := wrrUpdateWeight_531_isSome ((cs + 1) % wrr531.length == 0) cw
      simp only [wrrLoop, hw2]
      rw [if_neg]
      · exact ih _ _
      · rintro ⟨-, hcon⟩
        rw [allDead3_getD] at hcon
        exact absurd hcon (by decide)

/-! Periodicity of the weighted-round-robin pick sequence for weights
[5, 3, 1] with every server alive: the shared state returns to the same
value after picks 3 and 12, so the pick sequence has period 9. -/

theorem wrrStateAfter_period (m : Nat) : wrrStateAfter (m + 12) = wrrStateAfter (m + 3) := by
  induction m with
  | zero => decide
  | succ m ih =>
    have h1 : m + 1 + 12 = (m + 12) + 1 := by omega
    have h2 : m + 1 + 3 = (m + 3) + 1 := by omega
    rw [h1, h2]
    show (wrrPickServer wrr531 allAlive3 (wrrStateAfter (m + 12))).2 =
      (wrrPickServer wrr531 allAlive3 (wrrStateAfter (m + 3))).2
    rw [ih]

theorem wrrSeq_period (k : Nat) : wrrSeq (k + 9) = wrrSeq k := by
  match k with
  | 0 => decide
  | 1 => decide
  | 2 => decide
  | m + 3 =>
    unfold wrrSeq
    have h : m + 3 + 9 = m + 12 := by omega
    rw [h, wrrStateAfter_period]

theorem wrrWindow_period (k : Nat) : wrrWindow (k + 9) = wrrWindow k := by
  unfold wrrWindow
  apply List.map_congr_left
  intro i _
  have h : k + 9 + i = (k + i) + 9 := by omega
  rw [h, wrrSeq_period]

/-- Claim C2: for the weighted-round-robin balancer built over weights
[5, 3, 1] with all three servers alive at every probe, every window of 9
consecutive picks contains the weight-5 server (index 0) exactly 5 times,
the weight-3 server (index 1) exactly 3 times and the weight-1 server
(index 2) exactly once; and the sequence is interleaved rather than made of
bursts: no four consecutive picks ever return the same server (the longest
run is 3), so in particular the weight-5 server is never served 5 times in
a row. -/
theorem wrr_531_window_fair : ∀ k : Nat,
    ((wrrWindow k).count (some 0) = 5 ∧ (wrrWindow k).count (some 1) = 3 ∧
      (wrrWindow k).count (some 2) = 1) ∧
    ¬(wrrSeq k = wrrSeq (k + 1) ∧ wrrSeq (k + 1) = wrrSeq (k + 2) ∧
      wrrSeq (k + 2) = wrrSeq (k + 3)) := by
  intro k
  induction k using Nat.strong_induction_on with
  | _ k ih =>
    rcases Nat.lt_or_ge k 9 with h | h
    · interval_cases k <;> exact (by decide)
    · obtain ⟨m, rfl⟩ : ∃ m, k = m + 9 := ⟨k - 9, by omega⟩
      have h1 : m + 9 + 1 = (m + 1) + 9 := by omega
      have h2 : m + 9 + 2 = (m + 2) + 9 := by omega
      have h3 : m + 9 + 3 = (m + 3) + 9 := by omega
      rw [wrrWindow_period, wrrSeq_period, h1, h2, h3, wrrSeq_period, wrrSeq_period,
        wrrSeq_period]
      exact ih m (by omega)

/-! The two scanning picks share one argmin loop; the next two lemmas
characterise it.  If no alive element of the remaining list is strictly
below the running minimum, the selection is left untouched; otherwise the
scan ends on the first alive element attaining the least key. -/

theorem scanMinAux_no_update {α : Type} (key : α → Int) (isAl : α → Bool) (l : List α) :
    ∀ (i : Nat) (minV : Int) (sel : Option Nat),
      (∀ k (hk : k < l.length), isAl (l.get ⟨k, hk⟩) = true → minV ≤ key (l.get ⟨k, hk⟩)) →
      scanMinAux key isAl l i minV sel = sel := by
  induction l with
  | nil => intro i minV sel _; rfl
  | cons s rest ih =>
    intro i minV sel h
    by_cases ha : isAl s = true
    · have hks : ¬ key s < minV := not_lt.mpr (h 0 (Nat.succ_pos _) ha)
      simp only [scanMinAux]
      rw [if_pos ha, if_neg hks]
      exact ih (i + 1) minV sel (fun k hk hal => h (k + 1) (Nat.succ_lt_succ hk) hal)
    · simp only [scanMinAux]
      rw [if_neg ha]
      exact ih (i + 1) minV sel (fun k hk hal => h (k + 1) (Nat.succ_lt_succ hk) hal)

theorem scanMinAux_found {α : Type} (key : α → Int) (isAl : α → Bool) (l : List α) :
    ∀ (i : Nat) (minV : Int) (sel : Option Nat),
      (∃ k, ∃ hk : k < l.length, isAl (l.get ⟨k, hk⟩) = true ∧ key (l.get ⟨k, hk⟩) < minV) →
      ∃ j, ∃ hj : j < l.length,
        scanMinAux key isAl l i minV sel = some (i + j) ∧
        isAl (l.get ⟨j, hj⟩) = true ∧
        key (l.get ⟨j, hj⟩) < minV ∧
        (∀ k (hk : k < l.length), isAl (l.get ⟨k, hk⟩) = true →
          key (l.get ⟨j, hj⟩) ≤ key (l.get ⟨k, hk⟩)) ∧
        (∀ k (hk : k < l.length), k < j → isAl (l.get ⟨k, hk⟩) = true →
          key (l.get ⟨j, hj⟩) < key (l.get ⟨k, hk⟩)) := by
  induction l with
  | nil =>
    intro i minV sel h
    obtain ⟨k, hk, -, -⟩ := h
    exact absurd hk (Nat.not_lt_zero k)
  | cons s rest ih =>
    intro i minV sel h
    by_cases ha : isAl s = true
    · by_cases hks : key s < minV
      · simp only [scanMinAux]
        rw [if_pos ha, if_pos hks]
        by_cases hex : ∃ k, ∃ hk : k < rest.length,
            isAl (rest.get ⟨k, hk⟩) = true ∧ key (rest.get ⟨k, hk⟩) < key s
        · obtain ⟨j, hj, heq, hal, hkey, hmin, hfirst⟩ := ih (i + 1) (key s) (some i) hex
          refine ⟨j + 1, Nat.succ_lt_succ hj, ?_, hal, lt_trans hkey hks, ?_, ?_⟩
          · rw [heq]; congr 1; omega
          · intro k hk halk
            cases k with
            | zero => exact le_of_lt hkey
            | succ k => exact hmin k (Nat.lt_of_succ_lt_succ hk) halk
          · intro k hk hlt halk
            cases k with
            | zero => exact hkey
            | succ k =>
              exact hfirst k (Nat.lt_of_succ_lt_succ hk) (Nat.lt_of_succ_lt_succ hlt) halk
        · push_neg at hex
          have hnone : scanMinAux key isAl rest (i + 1) (key s) (some i) = some i :=
            scanMinAux_no_update key isAl rest (i + 1) (key s) (some i)
              (fun k hk hal => hex k hk hal)
          refine ⟨0, Nat.succ_pos _, ?_, ha, hks, ?_, ?_⟩
          · rw [hnone]; congr 1
          · intro k hk halk
            cases k with
            | zero => exact le_refl _
            | succ k => exact hex k (Nat.lt_of_succ_lt_succ hk) halk
          · intro k hk hlt halk
            exact absurd hlt (Nat.not_lt_zero k)
      · simp only [scanMinAux]
        rw [if_pos ha, if_neg hks]
        have hex : ∃ k, ∃ hk : k < rest.length,
            isAl (rest.get ⟨k, hk⟩) = true ∧ key (rest.get ⟨k, hk⟩) < minV := by
          obtain ⟨k0, hk0, hal0, hkey0⟩ := h
          cases k0 with
          | zero => exact absurd hkey0 hks
          | succ k0 => exact ⟨k0, Nat.lt_of_succ_lt_succ hk0, hal0, hkey0⟩
        obtain ⟨j, hj, heq, hal, hkey, hmin, hfirst⟩ := ih (i + 1) minV sel hex
        have hjs : key (rest.get ⟨j, hj⟩) < key s := lt_of_lt_of_le hkey (not_lt.mp hks)
        refine ⟨j + 1, Nat.succ_lt_succ hj, ?_, hal, hkey, ?_, ?_⟩
        · rw [heq]; congr 1; omega
        · intro k hk halk
          cases k with
          | zero => exact le_of_lt hjs
          | succ k => exact hmin k (Nat.lt_of_succ_lt_succ hk) halk
        · intro k hk hlt halk
          cases k with
          | zero => exact hjs
          | succ k =>
            exact hfirst k (Nat.lt_of_succ_lt_succ hk) (Nat.lt_of_succ_lt_succ hlt) halk
    · simp only [scanMinAux]
      rw [if_neg ha]
      have hex : ∃ k, ∃ hk : k < rest.length,
          isAl (rest.get ⟨k, hk⟩) = true ∧ key (rest.get ⟨k, hk⟩) < minV := by
        obtain ⟨k0, hk0, hal0, hkey0⟩ := h
        cases k0 with
        | zero => exact absurd hal0 ha
        | succ k0 => exact ⟨k0, Nat.lt_of_succ_lt_succ hk0, hal0, hkey0⟩
      obtain ⟨j, hj, heq, hal, hkey, hmin, hfirst⟩ := ih (i + 1) minV sel hex
      refine ⟨j + 1, Nat.succ_lt_succ hj, ?_, hal, hkey, ?_, ?_⟩
      · rw [heq]; congr 1; omega
      · intro k hk halk
        cases k with
        | zero => exact absurd halk ha
        | succ k => exact hmin k (Nat.lt_of_succ_lt_succ hk) halk
      · intro k hk hlt halk
        cases k with
        | zero => exact absurd halk ha
        | succ k =>
          exact hfirst k (Nat.lt_of_succ_lt_succ hk) (Nat.lt_of_succ_lt_succ hlt) halk

/-- Counterexample to claim C3 as stated: a pool with one alive backend
whose connections count equals the max-int sentinel the scan starts from.
The strict comparison `connections < minConnections` fails against the
sentinel, so the pick returns nil although an alive backend exists. -/
theorem lcPick_sentinel_counterexample :
    (sentinelLCPool.get ⟨0, by decide⟩).alive = true ∧
      lcPickServer sentinelLCPool = none := by decide

/-- Claim C3 as amended: for every pool in which at least one alive backend
has a connections count strictly below the max-int sentinel (true of every
state reachable by counting in-flight requests), the least-connections pick
returns an alive backend whose count is less than or equal to the count of
every alive backend, and every alive backend earlier in pool order has a
strictly larger count — that is, ties go to the first encountered. -/
theorem lcPick_first_min (servers : List LCServer)
    (h : ∃ k, ∃ hk : k < servers.length, (servers.get ⟨k, hk⟩).alive = true ∧
      (servers.get ⟨k, hk⟩).connections < maxGoInt) :
    ∃ j, ∃ hj : j < servers.length,
      lcPickServer servers = some j ∧
      (servers.get ⟨j, hj⟩).alive = true ∧
      (∀ k (hk : k < servers.length), (servers.get ⟨k, hk⟩).alive = true →
        (servers.get ⟨j, hj⟩).connections ≤ (servers.get ⟨k, hk⟩).connections) ∧
      (∀ k (hk : k < servers.length), k < j → (servers.get ⟨k, hk⟩).alive = true →
        (servers.get ⟨j, hj⟩).connections < (servers.get ⟨k, hk⟩).connections) := by
  obtain ⟨j, hj, heq, hal, hkey, hmin, hfirst⟩ :=
    scanMinAux_found (fun s => s.connections) (fun s => s.alive) servers 0 maxGoInt none h
  refine ⟨j, hj, ?_, hal, hmin, hfirst⟩
  unfold lcPickServer
  rw [heq]
  congr 1
  omega

/-- Witness for C3's amended theorem on a pool with a dead head and a tie
between the two last alive backends. -/
theorem lcPick_first_min_witness :
    ∃ j, ∃ hj : j < exLCPool.length,
      lcPickServer exLCPool = some j ∧
      (exLCPool.get ⟨j, hj⟩).alive = true ∧
      (∀ k (hk : k < exLCPool.length), (exLCPool.get ⟨k, hk⟩).alive = true →
        (exLCPool.get ⟨j, hj⟩).connections ≤ (exLCPool.get ⟨k, hk⟩).connections) ∧
      (∀ k (hk : k < exLCPool.length), k < j → (exLCPool.get ⟨k, hk⟩).alive = true →
        (exLCPool.get ⟨j, hj⟩).connections < (exLCPool.get ⟨k, hk⟩).connections) :=
  lcPick_first_min exLCPool ⟨1, by decide, by decide, by decide⟩

theorem averageResponseTime_nonneg (s : LRTServer) (h1 : 0 ≤ s.totalResponseTime)
    (h2 : 0 ≤ s.requests) : 0 ≤ averageResponseTime s := by
  unfold averageResponseTime
  split
  · exact le_refl 0
  · exact Int.tdiv_nonneg h1 h2

/-- Claim C7: a backend with zero recorded requests has average response
time zero, and in the least-response-time pick such an alive backend is
maximally favored: under the reachable-state facts that accumulators are
non-negative, it is chosen whenever no earlier alive backend also has
average zero (those are the only backends it can lose to). -/
theorem lrt_unmeasured_favored (servers : List LRTServer) (u : Nat) (hu : u < servers.length)
    (hnn : ∀ k (hk : k < servers.length), 0 ≤ (servers.get ⟨k, hk⟩).totalResponseTime ∧
      0 ≤ (servers.get ⟨k, hk⟩).requests)
    (halu : (servers.get ⟨u, hu⟩).alive = true)
    (hrequ : (servers.get ⟨u, hu⟩).requests = 0)
    (hearlier : ∀ k (hk : k < servers.length), k < u → (servers.get ⟨k, hk⟩).alive = true →
      averageResponseTime (servers.get ⟨k, hk⟩) ≠ 0) :
    averageResponseTime (servers.get ⟨u, hu⟩) = 0 ∧ lrtPickServer servers = some u := by
  have havgu : averageResponseTime (servers.get ⟨u, hu⟩) = 0 := by
    unfold averageResponseTime
    rw [if_pos hrequ]
  refine ⟨havgu, ?_⟩
  obtain ⟨j, hj, heq, hal, hkey, hmin, hfirst⟩ :=
    scanMinAux_found (fun s => averageResponseTime s) (fun s => s.alive) servers 0
      maxGoDuration none
      ⟨u, hu, halu, by
        show averageResponseTime (servers.get ⟨u, hu⟩) < maxGoDuration
        rw [havgu]; decide⟩
  have hjnn : 0 ≤ averageResponseTime (servers.get ⟨j, hj⟩) :=
    averageResponseTime_nonneg _ (hnn j hj).1 (hnn j hj).2
  have hju : averageResponseTime (servers.get ⟨j, hj⟩) = 0 := by
    have hle := hmin u hu halu
    rw [havgu] at hle
    exact le_antisymm hle hjnn
  have hjeq : j = u := by
    rcases Nat.lt_trichotomy j u with hlt | heqq | hgt
    · exact absurd hju (hearlier j hj hlt hal)
    · exact heqq
    · have hltu := hfirst u hu hgt halu
      rw [havgu, hju] at hltu
      exact absurd hltu (lt_irrefl 0)
  subst hjeq
  unfold lrtPickServer
  rw [heq]
  congr 1
  omega

/-- Witness for C7: a measured backend of average 5 before a never-measured
backend; the unmeasured one is picked. -/
theorem lrt_unmeasured_favored_witness :
    averageResponseTime (exLRTPool.get ⟨1, by decide⟩) = 0 ∧
      lrtPickServer exLRTPool = some 1 :=
  lrt_unmeasured_favored exLRTPool 1 (by decide) (by decide) (by decide) (by decide)
    (by decide)

theorem runConnTrace_eq (es : List ConnEvent) : ∀ c : Int,
    runConnTrace c es = c + (incCount es : Int) - (decCount es : Int) := by
  induction es with
  | nil => intro c; simp [runConnTrace, incCount, decCount]
  | cons e rest ih =>
    intro c
    cases e with
    | inc =>
      have hrun : runConnTrace c (ConnEvent.inc :: rest) = runConnTrace (c + 1) rest := rfl
      have h1 : incCount (ConnEvent.inc :: rest) = incCount rest + 1 := by
        simp [incCount, List.count_cons]
      have h2 : decCount (ConnEvent.inc :: rest) = decCount rest := by
        simp [decCount, List.count_cons]
      rw [hrun, ih, h1, h2]
      push_cast
      ring
    | dec =>
      have hrun : runConnTrace c (ConnEvent.dec :: rest) = runConnTrace (c - 1) rest := rfl
      have h1 : incCount (ConnEvent.dec :: rest) = incCount rest := by
        simp [incCount, List.count_cons]
      have h2 : decCount (ConnEvent.dec :: rest) = decCount rest + 1 := by
        simp [decCount, List.count_cons]
      rw [hrun, ih, h1, h2]
      push_cast
      ring

/-- Claim C6: for every interleaved trace of completed Serve calls — every
decrement is the deferred counterpart of an earlier increment, so every
prefix has at least as many increments as decrements — the connections
counter (a) returns to its pre-burst value once the trace balances out
(all forwards complete, including failed ones, since the decrement is
deferred), and (b) never goes negative at any reachable point when it
starts non-negative. -/
theorem serve_trace_no_leak (v0 : Int) (es : List ConnEvent)
    (hwf : ∀ n, n ≤ es.length → decCount (es.take n) ≤ incCount (es.take n))
    (h0 : 0 ≤ v0) :
    (incCount es = decCount es → runConnTrace v0 es = v0) ∧
    (∀ n, 0 ≤ runConnTrace v0 (es.take n)) := by
  constructor
  · intro hbal
    rw [runConnTrace_eq, hbal]
    omega
  · intro n
    rcases le_or_lt n es.length with h | h
    · have hh := hwf n h
      rw [runConnTrace_eq]
      omega
    · have htake : es.take n = es := List.take_of_length_le (Nat.le_of_lt h)
      have hh := hwf es.length (Nat.le_refl _)
      rw [List.take_length] at hh
      rw [htake, runConnTrace_eq]
      omega

/-- Witness for C6: three Serve calls interleaved as
inc, inc, dec, inc, dec, dec starting from a zero counter. -/
theorem serve_trace_no_leak_witness :
    (incCount exTrace = decCount exTrace → runConnTrace 0 exTrace = 0) ∧
      (∀ n, 0 ≤ runConnTrace 0 (exTrace.take n)) :=
  serve_trace_no_leak 0 exTrace (by decide) (by decide)

theorem lcPickServerStGo_frame :
    ∀ (fuel : Nat) (p : List LCServer) (i : Nat) (minV : Int) (sel : Option Nat),
      (lcPickServerStGo fuel p i minV sel).2 = p := by
  intro fuel
  induction fuel with
  | zero => intro p i minV sel; rfl
  | succ fuel ih =>
    intro p i minV sel
    simp only [lcPickServerStGo, lcIsAliveCall, lcConnectionsCall]
    split
    · split
      · split
        · exact ih p (i + 1) _ _
        · exact ih p (i + 1) _ _
      · exact ih p (i + 1) _ _
    · rfl

theorem lrtPickServerStGo_frame :
    ∀ (fuel : Nat) (p : List LRTServer) (i : Nat) (minV : Int) (sel : Option Nat),
      (lrtPickServerStGo fuel p i minV sel).2 = p := by
  intro fuel
  induction fuel with
  | zero => intro p i minV sel; rfl
  | succ fuel ih =>
    intro p i minV sel
    simp only [lrtPickServerStGo, lrtIsAliveCall, lrtAverageCall]
    split
    · split
      · split
        · exact ih p (i + 1) _ _
        · exact ih p (i + 1) _ _
      · exact ih p (i + 1) _ _
    · rfl

/-- Claim C9: the least-connections and least-response-time picks are
read-only on backend state: threading the pool through every call a scan
makes (IsAlive, Connections, AverageResponseTime), the pool a whole pick
hands back is exactly the pool it was given — no counter is written;
the counters move only through the increment, decrement and
update-response-time operations that Serve performs. -/
theorem scanning_picks_read_only (p : List LCServer) (q : List LRTServer) :
    (lcPickServerSt p).2 = p ∧ (lrtPickServerSt q).2 = q :=
  ⟨lcPickServerStGo_frame p.length p 0 maxGoInt none,
   lrtPickServerStGo_frame q.length q 0 maxGoDuration none⟩

end GoLB
